import Mathlib

/-!
Verification of the csv-merge-translate core pipeline.

The definitions below are a shallow embedding of the application's core
logic (`normalizeSKU`, `mergeFiles`, `extractColumns`,
`handleTranslatedFileChange` and `replaceColumnsWithTranslations` from
`src/src/services/db.ts` / `src/src/App.tsx`).  Records are modelled as
association lists from column name to cell value; JavaScript `Map`s are
modelled as insertion-ordered association lists with the same
set/get/delete semantics.
-/

namespace CsvMergeTranslate

/-! ## JS `Map` / object semantics over association lists -/

/-- JS `Map.get` / property read: the value of the first (unique) entry
with the given key. -/
def mapGet {α : Type} (m : List (String × α)) (k : String) : Option α :=
  (m.find? (fun p => p.1 == k)).map (fun p => p.2)

/-- JS `Map.set` / property write: update the entry in place if the key is
present (keeping its original position), otherwise append a new entry. -/
def mapSet {α : Type} (m : List (String × α)) (k : String) (v : α) : List (String × α) :=
  match m with
  | [] => [(k, v)]
  | (k₀, v₀) :: rest => if k₀ = k then (k, v) :: rest else (k₀, v₀) :: mapSet rest k v

/-- JS `Map.delete`: remove the entry with the given key, keeping order. -/
def mapDelete {α : Type} (m : List (String × α)) (k : String) : List (String × α) :=
  m.filter (fun p => !(p.1 == k))

/-- Insertion-ordered key list of a JS `Map` / `Object.keys`. -/
def mapKeys {α : Type} (m : List (String × α)) : List String :=
  m.map (fun p => p.1)

/-- A parsed tabular record: ordered mapping from column name to cell
value, as produced by the external CSV/spreadsheet parser. -/
abbrev Rec := List (String × String)

/-- Property read as an `Option`: `none` models JS `undefined`. -/
def getOpt (r : Rec) (k : String) : Option String :=
  mapGet r k

/-- Property read collapsing `undefined` to the empty string, which is how
the merge code consumes cell values (`x` or `x || ''`). -/
def getStr (r : Rec) (k : String) : String :=
  (getOpt r k).getD ""

/-! ## String primitives modelling JS `String.prototype` methods

These are executable char-list implementations of the JS string methods
the source uses (`trim`, `toLowerCase`, `startsWith`, `endsWith`,
`slice`, `includes`, `replace`, `join`), so that all claims evaluate by
kernel reduction. -/

/-- Whether `pat` occurs at the start of `cs`. -/
def startsList (pat : List Char) (cs : List Char) : Bool :=
  match pat, cs with
  | [], _ => true
  | _ :: _, [] => false
  | p :: ps, c :: rest => p == c && startsList ps rest

/-- JS `s.toLowerCase()` (character-wise lowering). -/
def lowerStr (s : String) : String :=
  String.mk (s.data.map Char.toLower)

/-- JS `s.startsWith(pat)`. -/
def strStarts (s pat : String) : Bool :=
  startsList pat.data s.data

/-- JS `s.endsWith(pat)`. -/
def strEnds (s pat : String) : Bool :=
  startsList pat.data.reverse s.data.reverse

/-- JS `s.slice(n)`: drop the first `n` characters. -/
def strDrop (s : String) (n : Nat) : String :=
  String.mk (s.data.drop n)

/-- JS `s.slice(0, -n)`: drop the last `n` characters. -/
def strDropRight (s : String) (n : Nat) : String :=
  String.mk (s.data.take (s.data.length - n))

/-- JS `s.trim()`: remove leading and trailing whitespace. -/
def jsTrim (s : String) : String :=
  String.mk (((s.data.dropWhile Char.isWhitespace).reverse.dropWhile Char.isWhitespace).reverse)

/-- JS `parts.join(sep)` at the char-list level. -/
def joinSep (sep : List Char) (parts : List (List Char)) : List Char :=
  match parts with
  | [] => []
  | [x] => x
  | x :: rest => x ++ sep ++ joinSep sep rest

/-- JS `parts.join(sep)` for strings. -/
def joinStr (sep : String) (parts : List String) : String :=
  String.mk (joinSep sep.data (parts.map String.data))

/-! ## Identifier Normalizer (`normalizeSKU`) -/

/-- `normalizeSKU` from the source: early return on falsy input, trim,
case-insensitively strip a leading `b34` (the match of `/^b34/i` always
has length 3), case-insensitively strip a trailing `v1` (length 2), trim. -/
def normalizeSKU (sku : String) : String :=
  if sku = "" then ""
  else
    let n1 := jsTrim sku
    let n2 := if strStarts (lowerStr n1) "b34" then strDrop n1 3 else n1
    let n3 := if strEnds (lowerStr n2) "v1" then strDropRight n2 2 else n2
    jsTrim n3

/-- Spec-worded step: case-insensitively strip the fixed leading literal
if present (used to compare `normalizeSKU` against the spec's algorithm). -/
def stripLeadCI (lit : String) (s : String) : String :=
  if strStarts (lowerStr s) lit then strDrop s lit.length else s

/-- Spec-worded step: case-insensitively strip the fixed trailing literal
if present. -/
def stripTailCI (lit : String) (s : String) : String :=
  if strEnds (lowerStr s) lit then strDropRight s lit.length else s

/-- The normalization algorithm exactly as the spec words it: trim, strip
leading literal, strip trailing literal, trim again. -/
def normalizeSpec (s : String) : String :=
  jsTrim (stripTailCI "v1" (stripLeadCI "b34" (jsTrim s)))

/-- JS `String.prototype.includes`: substring occurrence test. -/
def hasSubList (pat : List Char) (cs : List Char) : Bool :=
  match cs with
  | [] => startsList pat []
  | _ :: rest => startsList pat cs || hasSubList pat rest

/-- JS `title.includes(sku)`. -/
def containsStr (s pat : String) : Bool :=
  hasSubList pat.data s.data

/-- JS `String.prototype.replace` with a string pattern: replace the first
occurrence only. -/
def replaceFirstAux (pat repl : List Char) (cs : List Char) : List Char :=
  match cs with
  | [] => []
  | c :: rest =>
    if startsList pat (c :: rest) then repl ++ (c :: rest).drop pat.length
    else c :: replaceFirstAux pat repl rest

/-- JS `s.replace(pat, repl)` (string pattern, first occurrence). -/
def replaceFirst (s pat repl : String) : String :=
  String.mk (replaceFirstAux pat.data repl.data s.data)

/-- JS `a || b` for identifier strings where `a` may be `undefined`:
returns `a` when it is a non-empty string, otherwise `b` collapsed to a
string (`undefined` becomes `""`, which subsequent truthiness checks treat
as falsy, matching the JS control flow). -/
def jsOrStr (a b : Option String) : String :=
  match a with
  | some s => if s = "" then b.getD "" else s
  | none => b.getD ""

/-! ## Field Composer -/

/-- Title composition for both-present items (`mergeFiles`, primary loop):
`title = productItem.Name || ''`; if title and brand are truthy, strip the
brand when the title starts with it, then remove the first occurrence of
the raw identifier `deItem.SKU || productItem.SKU` when present. -/
def composeTitleBoth (deItem productItem : Rec) : String :=
  let title := getStr productItem "Name"
  let brand := getStr productItem "Brand"
  if title ≠ "" ∧ brand ≠ "" then
    let title1 := if strStarts title brand then jsTrim (strDrop title brand.length) else title
    let sku := jsOrStr (getOpt deItem "SKU") (getOpt productItem "SKU")
    if sku ≠ "" ∧ containsStr title1 sku then jsTrim (replaceFirst title1 sku "") else title1
  else title

/-- Description composition for both-present items: `Description 1..5`
from the product record, then `Description 1` from the DE record, keeping
only truthy segments, joined by blank lines. -/
def composeDescriptionBoth (deItem productItem : Rec) : String :=
  let ds := (List.range' 1 5).filterMap (fun i =>
    let v := getStr productItem ("Description " ++ toString i)
    if v = "" then none else some v)
  let ds := ds ++ (let v := getStr deItem "Description 1"; if v = "" then [] else [v])
  joinStr "\n\n" ds

/-- The `image1..image12` fields carried over from `src` when truthy. -/
def imageFields (src : Rec) : Rec :=
  (List.range' 1 12).filterMap (fun i =>
    let key := "image" ++ toString i
    let v := getStr src key
    if v = "" then none else some (key, v))

/-- Rule A: the merged record for an item present in both inputs. -/
def mergeBoth (normalizedSku : String) (deItem productItem : Rec) : Rec :=
  [("SKU", normalizedSku),
   ("EAN", getStr deItem "EAN"),
   ("Subcategory", getStr deItem "Category"),
   ("Category", getStr productItem "Category"),
   ("Price", getStr deItem "Price"),
   ("Stock", getStr deItem "Stock"),
   ("Material", getStr productItem "Material"),
   ("Title", composeTitleBoth deItem productItem),
   ("Brand", getStr productItem "Brand"),
   ("Product size", getStr productItem "Product size/cm"),
   ("Package size Length", getStr productItem "Package size/cm L"),
   ("Package size Width", getStr productItem "Package size/cm W"),
   ("Package size Height", getStr productItem "Package size/cm H"),
   ("Net weight", getStr productItem "Net weight/kg"),
   ("Gross weight", getStr productItem "Gross weight/kg"),
   ("Volume/CBM", getStr productItem "Volume/CBM"),
   ("Color", getStr productItem "Color"),
   ("description", composeDescriptionBoth deItem productItem)]
  ++ imageFields deItem

/-- Rule B: the merged record for an item present only in the DE input. -/
def mergePrimaryOnly (normalizedSku : String) (deItem : Rec) : Rec :=
  [("SKU", normalizedSku),
   ("EAN", getStr deItem "EAN"),
   ("Brand", getStr deItem "Brand"),
   ("Category", getStr deItem "Category"),
   ("Title", getStr deItem "Title"),
   ("Price", getStr deItem "Price"),
   ("Stock", getStr deItem "Stock"),
   ("description", getStr deItem "Description 1")]
  ++ imageFields deItem

/-- Title composition for secondary-only items: same brand/identifier
stripping, with the identifier taken from the product record only. -/
def composeTitleSecondary (productItem : Rec) : String :=
  let title := getStr productItem "Name"
  let brand := getStr productItem "Brand"
  if title ≠ "" ∧ brand ≠ "" then
    let title1 := if strStarts title brand then jsTrim (strDrop title brand.length) else title
    let sku := getStr productItem "SKU"
    if sku ≠ "" ∧ containsStr title1 sku then jsTrim (replaceFirst title1 sku "") else title1
  else title

/-- Description composition for secondary-only items: `Description 1..5`
plus the `Specifications` field when truthy, blank-line joined. -/
def composeDescriptionSecondary (productItem : Rec) : String :=
  let ds := (List.range' 1 5).filterMap (fun i =>
    let v := getStr productItem ("Description " ++ toString i)
    if v = "" then none else some v)
  let ds := ds ++ (let v := getStr productItem "Specifications"; if v = "" then [] else [v])
  joinStr "\n\n" ds

/-- Rule C: the merged record for an item present only in the product
information input. -/
def mergeSecondaryOnly (normalizedSku : String) (productItem : Rec) : Rec :=
  [("SKU", normalizedSku),
   ("EAN", getStr productItem "EAN"),
   ("Material", getStr productItem "Material"),
   ("Title", composeTitleSecondary productItem),
   ("Subcategory", getStr productItem "Title"),
   ("Category", getStr productItem "Category"),
   ("Brand", getStr productItem "Brand"),
   ("Product size", getStr productItem "Product size/cm"),
   ("Package size Length", getStr productItem "Package size/cm L"),
   ("Package size Width", getStr productItem "Package size/cm W"),
   ("Package size Height", getStr productItem "Package size/cm H"),
   ("Net weight", getStr productItem "Net weight/kg"),
   ("Gross weight", getStr productItem "Gross weight/kg"),
   ("Volume/CBM", getStr productItem "Volume/CBM"),
   ("Color", getStr productItem "Color"),
   ("description", composeDescriptionSecondary productItem)]
  ++ imageFields productItem

/-! ## Record Joiner (`mergeFiles`) -/

/-- `deData.forEach(...)` / `productData.forEach(...)`: build the lookup
index keyed by normalized SKU, skipping records whose `SKU` is missing or
empty (falsy), later records overwriting earlier ones. -/
def buildIndex (data : List Rec) : List (String × Rec) :=
  data.foldl (fun m item =>
    match getOpt item "SKU" with
    | none => m
    | some s => if s = "" then m else mapSet m (normalizeSKU s) item) []

/-- Which branch of `mergeFiles` produced a unified record. -/
inductive Branch where
  | both
  | primaryOnly
  | secondaryOnly
deriving DecidableEq, Repr

/-- The primary loop of `mergeFiles`: iterate the DE index in insertion
order; a key present in the product index yields a both-present record and
deletes the key from the product index, otherwise a primary-only record.
Returns the emitted records (tagged with the branch that produced them)
together with the remaining product index. -/
def mergeLoopT (dm : List (String × Rec)) (pm : List (String × Rec)) :
    List (Branch × Rec) × List (String × Rec) :=
  match dm with
  | [] => ([], pm)
  | (k, deItem) :: rest =>
    match mapGet pm k with
    | some productItem =>
      let r := mergeLoopT rest (mapDelete pm k)
      ((Branch.both, mergeBoth k deItem productItem) :: r.1, r.2)
    | none =>
      let r := mergeLoopT rest pm
      ((Branch.primaryOnly, mergePrimaryOnly k deItem) :: r.1, r.2)

/-- `mergeFiles` with each unified record tagged by its producing branch:
primary loop first, then the remaining product-index entries in their
original insertion order as secondary-only records. -/
def mergeFilesTagged (deData productData : List Rec) : List (Branch × Rec) :=
  let dm := buildIndex deData
  let pm := buildIndex productData
  let r := mergeLoopT dm pm
  r.1 ++ r.2.map (fun q => (Branch.secondaryOnly, mergeSecondaryOnly q.1 q.2))

/-- `mergeFiles` from the source: the unified record sequence. -/
def mergeFiles (deData productData : List Rec) : List Rec :=
  (mergeFilesTagged deData productData).map (fun p => p.2)

/-! ## Extraction Batcher (`extractColumns`) -/

/-- The fixed set of columns the extraction step exports. -/
def columnsToExtract : List String :=
  ["Subcategory", "Category", "Title", "description"]

/-- `ROWS_PER_FILE`: chunk bound for the description column. -/
def ROWS_PER_FILE : Nat := 600

/-- One exported row: `{row_index, SKU, <column>}` where the last field
holds the value of the extracted column. -/
structure BRow where
  row_index : Nat
  SKU : String
  value : String
deriving DecidableEq, Repr

/-- The exported row for `row` at global position `i`:
`{row_index: i, SKU: row.SKU || '', [column]: row[column] || ''}`. -/
def batchRow (column : String) (i : Nat) (row : Rec) : BRow :=
  { row_index := i, SKU := getStr row "SKU", value := getStr row column }

/-- `forEach((row, localIndex) => f (start + localIndex) row)`: map over a
list with the running index starting at `start`. -/
def enumMapFrom {α β : Type} (f : Nat → α → β) (start : Nat) (l : List α) : List β :=
  match l with
  | [] => []
  | a :: rest => f start a :: enumMapFrom f (start + 1) rest

/-- `Math.ceil(n / ROWS_PER_FILE)`: the number of description chunks. -/
def totalChunks (n : Nat) : Nat :=
  (n + ROWS_PER_FILE - 1) / ROWS_PER_FILE

/-- One description chunk: `data.slice(start, min(start + 600, n))`, each
row tagged with its global (not chunk-local) index. -/
def descChunk (data : List Rec) (column : String) (chunkIndex : Nat) : List BRow :=
  let start := chunkIndex * ROWS_PER_FILE
  enumMapFrom (batchRow column) start ((data.drop start).take ROWS_PER_FILE)

/-- The batches produced for one column: the description column is split
into `totalChunks` files of at most 600 rows, every other column becomes a
single batch over all rows. -/
def batchesFor (data : List Rec) (column : String) : List (List BRow) :=
  if column = "description" then
    (List.range (totalChunks data.length)).map (descChunk data column)
  else
    [enumMapFrom (batchRow column) 0 data]

/-- `extractColumns`: `none` models the early returns (empty data, or some
requested column missing from the first record's key set — the
all-or-nothing precondition check); otherwise one batch list per requested
column, in the fixed order. -/
def extractColumns (data : List Rec) : Option (List (String × List (List BRow))) :=
  if data.isEmpty then none
  else
    let availableColumns := mapKeys (data.headD [])
    let missingColumns := columnsToExtract.filter (fun col => !(availableColumns.contains col))
    if 0 < missingColumns.length then none
    else some (columnsToExtract.map (fun col => (col, batchesFor data col)))

/-! ## Translation Importer (`handleTranslatedFileChange`) -/

/-- The `columnTranslations` table: known translated header variants per
target column (`columnTranslations[columnName] || []`). -/
def columnTranslations (columnName : String) : List String :=
  if columnName = "Subcategory" then
    ["subkategorija", "underkategori", "underkategori", "alaluokka", "underkategori"]
  else if columnName = "Category" then
    ["kategorija", "kategori", "kategori", "luokka", "kategori"]
  else if columnName = "Title" then
    ["pavadinimas", "titel", "titel", "otsikko", "tittel"]
  else if columnName = "description" then
    ["aprašymas", "Beskrivning", "beskrivelse", "kuvaus", "beskrivelse"]
  else []

/-- JS `a || b` where both sides are possibly-undefined header names: a
found key that is the empty string is falsy and also falls through. -/
def jsOrKey (a b : Option String) : Option String :=
  match a with
  | some s => if s = "" then b else some s
  | none => b

/-- `keys.find(k => k.toLowerCase() === 'row_index') || keys[0]`. -/
def rowIndexKeyFor (keys : List String) : Option String :=
  jsOrKey (keys.find? (fun k => lowerStr k == "row_index")) (keys.get? 0)

/-- `keys.find(k => k.toLowerCase() === 'sku') || keys[1]`. -/
def skuKeyFor (keys : List String) : Option String :=
  jsOrKey (keys.find? (fun k => lowerStr k == "sku")) (keys.get? 1)

/-- The value-column resolution: first key whose lowercased name is in the
variant list or equals the lowercased canonical column name, falling back
to the 3rd field. -/
def dataKeyFor (columnName : String) (keys : List String) : Option String :=
  jsOrKey
    (keys.find? (fun k =>
      (columnTranslations columnName).contains (lowerStr k)
      || lowerStr k == lowerStr columnName))
    (keys.get? 2)

/-- A standardized imported row `{row_index, SKU, [columnName]: value}`. -/
structure TRow where
  row_index : String
  SKU : String
  value : String
deriving DecidableEq, Repr

/-- Reading a cell through a possibly-unresolved key. -/
def optLookup (row : Rec) (key : Option String) : Option String :=
  key.bind (fun k => getOpt row k)

/-- The per-row standardization step: resolve the three columns, drop the
row (`none`) exactly when the resolved value is `undefined`, default a
missing row-index to `'0'` and a missing identifier to the empty string. -/
def standardizeRow (columnName : String) (row : Rec) : Option TRow :=
  let keys := mapKeys row
  match optLookup row (dataKeyFor columnName keys) with
  | none => none
  | some v =>
    some { row_index := (optLookup row (rowIndexKeyFor keys)).getD "0",
           SKU := (optLookup row (skuKeyFor keys)).getD "",
           value := v }

/-- JS whitespace for `parseInt` (leading whitespace is skipped). -/
def jsWhitespace (c : Char) : Bool :=
  c == ' ' || c == '\t' || c == '\n' || c == '\r' || c == '\x0b' || c == '\x0c'

/-- The leading decimal-digit run of `cs`, or `none` if there is none. -/
def parseDigits (cs : List Char) : Option Nat :=
  let ds := cs.takeWhile (fun c => c.isDigit)
  if ds.isEmpty then none
  else some (ds.foldl (fun n c => n * 10 + (c.toNat - 48)) 0)

/-- JS `parseInt(s, 10)`: skip leading whitespace, optional sign, parse
the leading digit run; `none` models `NaN`. -/
def parseIntJS (s : String) : Option Int :=
  let cs := s.data.dropWhile jsWhitespace
  match cs with
  | '-' :: rest => (parseDigits rest).map (fun n => -(n : Int))
  | '+' :: rest => (parseDigits rest).map (fun n => (n : Int))
  | _ => (parseDigits cs).map (fun n => (n : Int))

/-- The sort comparator: ascending by `parseInt(row_index)`, with `NaN`
treated as positive infinity (two `NaN`s compare as equal, keeping the
stable order). -/
def rowLE (a b : TRow) : Bool :=
  match parseIntJS a.row_index, parseIntJS b.row_index with
  | _, none => true
  | none, some _ => false
  | some x, some y => x ≤ y

/-- `rowsBySku`: one row per identifier, last occurrence wins, rows with a
falsy identifier silently excluded; the result is the map's values in
first-insertion order (`Array.from(rowsBySku.values())`). -/
def dedupeBySku (rows : List TRow) : List TRow :=
  (rows.foldl (fun m row => if row.SKU = "" then m else mapSet m row.SKU row) []).map
    (fun p => p.2)

/-- The core of `handleTranslatedFileChange`: standardize and filter each
file's rows, concatenate, sort by numeric row index when more than one
file was supplied, fail (`none`, modelling the thrown error) when no rows
survive, otherwise reduce to one row per identifier. -/
def importTranslations (columnName : String) (files : List (List Rec)) : Option (List TRow) :=
  let allRows := (files.map (fun f => f.filterMap (standardizeRow columnName))).flatten
  let allRows := if 1 < files.length then allRows.mergeSort rowLE else allRows
  if allRows.isEmpty then none
  else some (dedupeBySku allRows)

/-! ## Translation Merge (`replaceColumnsWithTranslations`) -/

/-- The per-column `skuMap`: identifier to translated value, last wins,
falsy identifiers skipped (the imported value is always defined here). -/
def buildSkuMap (rows : List TRow) : List (String × String) :=
  rows.foldl (fun m row => if row.SKU = "" then m else mapSet m row.SKU row.value) []

/-- `replaceColumnsWithTranslations` applied to a deep copy of the merged
data: for each row with a truthy identifier, overwrite each translated
column's value when the identifier is in that column's map. -/
def applyTranslations (data : List Rec) (translatedFiles : List (String × List TRow)) :
    List Rec :=
  data.map (fun row =>
    if getStr row "SKU" = "" then row
    else
      translatedFiles.foldl (fun r q =>
        match mapGet (buildSkuMap q.2) (getStr r "SKU") with
        | some v => mapSet r q.1 v
        | none => r) row)

/-- The exported batch as it comes back from the external round trip: the
xlsx headers are `row_index`, `SKU`, and the column name, and the numeric
global index is re-read as its decimal string. -/
def batchRowToRec (column : String) (b : BRow) : Rec :=
  [("row_index", toString b.row_index), ("SKU", b.SKU), (column, b.value)]

/-- Extract one column, re-import an unmodified copy of the exported
batches, and merge the resulting translation map back over the data. -/
def roundTrip (data : List Rec) (column : String) : Option (List Rec) :=
  (importTranslations column
      ((batchesFor data column).map (fun b => b.map (batchRowToRec column)))).map
    (fun trows => applyTranslations data [(column, trows)])

/-- The last element of `l` satisfying `p`, the specification of the
last-write-wins maps built by the source. -/
def lastWith {β : Type} (p : β → Bool) (l : List β) : Option β :=
  match l with
  | [] => none
  | t :: rest =>
    match lastWith p rest with
    | some u => some u
    | none => if p t then some t else none

/-! ## Specification-side definitions and witness data -/

/-- Whether a record passes the `if (!item.SKU) return;` guard. -/
def keptSKU (r : Rec) : Bool :=
  match getOpt r "SKU" with
  | some s => !(s == "")
  | none => false

/-- Disjoint witness inputs for C1. -/
def deW1 : List Rec := [[("SKU", "A1"), ("Price", "3")]]

/-- Disjoint witness inputs for C1. -/
def pW1 : List Rec := [[("SKU", "B2"), ("Name", "n")]]

/-- Primary input of the C2 counterexample: key `A` is primary-only and
comes first in the primary dataset, key `B` is both-present. -/
def deC2 : List Rec := [[("SKU", "A")], [("SKU", "B")]]

/-- Secondary input of the C2 counterexample. -/
def pC2 : List Rec := [[("SKU", "B"), ("Name", "n")]]

/-- Stage position of a branch in the ordering the claim asserts
(both-present first, then primary-only, then secondary-only). -/
def branchStage (b : Branch) : Nat :=
  match b with
  | Branch.both => 0
  | Branch.primaryOnly => 1
  | Branch.secondaryOnly => 2

/-- Whether a branch sequence is grouped as the claim asserts: stage
positions non-decreasing along the output. -/
def groupedOrder (l : List Branch) : Bool :=
  match l with
  | [] => true
  | [_] => true
  | a :: b :: rest => decide (branchStage a ≤ branchStage b) && groupedOrder (b :: rest)

/-- Primary record of the C4 example. -/
def deC4 : Rec := [("SKU", "B34X1V1"), ("Price", "10"), ("Stock", "5")]

/-- Secondary record of the C4 example. -/
def pC4 : Rec := [("SKU", "X1"), ("Name", "Acme X1 Widget"), ("Brand", "Acme"),
  ("Category", "Widgets"), ("Description 1", "d1")]

/-- Witness data for C5: 1450 rows. -/
def dataW5 : List Rec := List.replicate 1450 [("SKU", "a")]

/-- Witness data for C6: a single record carrying none of the requested
columns, and a single record carrying all of them. -/
def dataW6bad : List Rec := [[("SKU", "a"), ("Price", "1")]]

/-- Witness data for C6, all requested columns present. -/
def dataW6good : List Rec :=
  [[("SKU", "a"), ("Subcategory", "s"), ("Category", "c"), ("Title", "t"), ("description", "d")]]

/-- The standardized row an exported batch row comes back as. -/
def trOf (b : BRow) : TRow :=
  { row_index := toString b.row_index, SKU := b.SKU, value := b.value }

/-- Witness data for C9: two records, one with an empty identifier. -/
def dataW9 : List Rec :=
  [[("SKU", "A"), ("Title", "t1"), ("Subcategory", "s"), ("Category", "c"),
    ("description", "d")],
   [("SKU", ""), ("Title", "t2")]]

/-- Primary input of the C10 example: two non-empty SKUs both normalizing
to the empty string. -/
def deC10 : List Rec := [[("SKU", "B34"), ("Price", "1")], [("SKU", "V1"), ("Price", "2")]]

/-- Secondary input of the C10 example: one more SKU normalizing to the
empty string. -/
def pC10 : List Rec := [[("SKU", "b34v1"), ("Name", "N")]]

/-! ## Lemmas about the association-list map operations -/

@[simp]
theorem mapGet_nil {α : Type} (k : String) : mapGet ([] : List (String × α)) k = none := rfl

@[simp]
theorem mapGet_cons {α : Type} (p : String × α) (m : List (String × α)) (k : String) :
    mapGet (p :: m) k = if p.1 = k then some p.2 else mapGet m k := by
  by_cases h : p.1 = k
  · rw [if_pos h]
    unfold mapGet
    rw [List.find?_cons_of_pos _ (by simpa using h)]
    rfl
  · rw [if_neg h]
    unfold mapGet
    rw [List.find?_cons_of_neg _ (by simpa using h)]

@[simp]
theorem mapSet_nil {α : Type} (k : String) (v : α) :
    mapSet ([] : List (String × α)) k v = [(k, v)] := rfl

theorem mapSet_cons {α : Type} (p : String × α) (m : List (String × α)) (k : String) (v : α) :
    mapSet (p :: m) k v = if p.1 = k then (k, v) :: m else p :: mapSet m k v := by
  obtain ⟨k₀, v₀⟩ := p
  rfl

theorem mapGet_mapSet_self {α : Type} (m : List (String × α)) (k : String) (v : α) :
    mapGet (mapSet m k v) k = some v := by
  induction m with
  | nil => simp
  | cons p rest ih =>
    rw [mapSet_cons]
    by_cases h : p.1 = k
    · simp [h]
    · simp [h, ih]

theorem mapGet_mapSet_ne {α : Type} (m : List (String × α)) (k k' : String) (v : α)
    (h : k' ≠ k) : mapGet (mapSet m k v) k' = mapGet m k' := by
  induction m with
  | nil => simp [Ne.symm h]
  | cons p rest ih =>
    rw [mapSet_cons]
    by_cases hp : p.1 = k
    · simp [hp, Ne.symm h, fun hh : k = k' => h hh.symm]
    · simp [hp, ih]

theorem mapDelete_cons {α : Type} (p : String × α) (m : List (String × α)) (k : String) :
    mapDelete (p :: m) k = if p.1 = k then mapDelete m k else p :: mapDelete m k := by
  rw [mapDelete, List.filter_cons]
  by_cases hp : p.1 = k <;> simp [hp, mapDelete]

theorem mapGet_mapDelete_ne {α : Type} (m : List (String × α)) (k k' : String)
    (h : k' ≠ k) : mapGet (mapDelete m k) k' = mapGet m k' := by
  induction m with
  | nil => rfl
  | cons p rest ih =>
    rw [mapDelete_cons]
    by_cases hp : p.1 = k
    · have hne : ¬ p.1 = k' := fun hh => h ((hh ▸ hp) : k' = k)
      rw [if_pos hp, mapGet_cons, if_neg hne, ih]
    · rw [if_neg hp, mapGet_cons, mapGet_cons, ih]

theorem mapKeys_nil {α : Type} : mapKeys ([] : List (String × α)) = [] := rfl

theorem mapKeys_cons {α : Type} (p : String × α) (m : List (String × α)) :
    mapKeys (p :: m) = p.1 :: mapKeys m := rfl

theorem mapKeys_mapSet {α : Type} (m : List (String × α)) (k : String) (v : α) :
    mapKeys (mapSet m k v) = if k ∈ mapKeys m then mapKeys m else mapKeys m ++ [k] := by
  induction m with
  | nil => simp [mapKeys]
  | cons p rest ih =>
    rw [mapSet_cons]
    by_cases hp : p.1 = k
    · rw [if_pos hp, mapKeys_cons, mapKeys_cons]
      simp [hp]
    · have hk : ¬ (k = p.1) := fun h => hp h.symm
      rw [if_neg hp, mapKeys_cons, mapKeys_cons, ih]
      by_cases hmem : k ∈ mapKeys rest <;> simp [hmem, hk]

theorem nodup_mapKeys_mapSet {α : Type} (m : List (String × α)) (k : String) (v : α)
    (h : (mapKeys m).Nodup) : (mapKeys (mapSet m k v)).Nodup := by
  rw [mapKeys_mapSet]
  by_cases hk : k ∈ mapKeys m
  · simpa [hk] using h
  · simp only [hk, if_false]
    refine List.Nodup.append h (List.nodup_singleton k) ?_
    intro a ha hb
    rw [List.mem_singleton] at hb
    subst hb
    exact hk ha

theorem mem_of_mem_mapSet {α : Type} (m : List (String × α)) (k : String) (v : α)
    (q : String × α) (h : q ∈ mapSet m k v) : q ∈ m ∨ q = (k, v) := by
  induction m with
  | nil => simpa using h
  | cons p rest ih =>
    rw [mapSet_cons] at h
    by_cases hp : p.1 = k
    · simp only [hp, if_true, List.mem_cons] at h
      rcases h with h | h
      · right; exact h
      · left; simp [h]
    · simp only [hp, if_false, List.mem_cons] at h
      rcases h with h | h
      · left; simp [h]
      · rcases ih h with h' | h'
        · left; simp [h']
        · right; exact h'

theorem mapGet_eq_none_iff {α : Type} (m : List (String × α)) (k : String) :
    mapGet m k = none ↔ k ∉ mapKeys m := by
  induction m with
  | nil => simp [mapKeys]
  | cons p rest ih =>
    rw [mapGet_cons, mapKeys_cons]
    by_cases hp : p.1 = k
    · simp [hp]
    · have hk : ¬ (k = p.1) := fun h => hp h.symm
      simp [hp, ih, List.mem_cons, hk]

/-! ## Last-write-wins fold lemmas -/

theorem lastWith_nil {β : Type} (p : β → Bool) : lastWith p ([] : List β) = none := rfl

theorem lastWith_cons {β : Type} (p : β → Bool) (t : β) (rest : List β) :
    lastWith p (t :: rest)
      = match lastWith p rest with
        | some u => some u
        | none => if p t then some t else none := rfl

theorem lastWith_of_filter_nil {β : Type} (p : β → Bool) (l : List β) :
    l.filter p = [] → lastWith p l = none := by
  induction l with
  | nil => intro h; rfl
  | cons t rest ih =>
    intro h
    rw [List.filter_cons] at h
    by_cases hp : p t = true
    · rw [if_pos hp] at h
      exact absurd h (by simp)
    · rw [if_neg hp] at h
      rw [lastWith_cons, ih h]
      simp [hp]

theorem lastWith_of_filter_singleton {β : Type} (p : β → Bool) (l : List β) (b : β) :
    l.filter p = [b] → lastWith p l = some b := by
  induction l with
  | nil => intro h; exact absurd h (by simp)
  | cons t rest ih =>
    intro h
    rw [List.filter_cons] at h
    by_cases hp : p t = true
    · rw [if_pos hp] at h
      have h1 : t = b := (List.cons_eq_cons.mp h).1
      have h2 : rest.filter p = [] := (List.cons_eq_cons.mp h).2
      subst h1
      rw [lastWith_cons, lastWith_of_filter_nil p rest h2]
      simp [hp]
    · rw [if_neg hp] at h
      rw [lastWith_cons, ih h]

/-- The generic last-write-wins fold: a fold that upserts `(key t, val t)`
for every kept element realizes, at every lookup key, the last kept
element with that key. -/
theorem mapGet_upsertFold {β γ : Type} (keep : β → Bool) (key : β → String) (val : β → γ)
    (rows : List β) (m0 : List (String × γ)) (s : String) :
    mapGet (rows.foldl (fun m t => if keep t then mapSet m (key t) (val t) else m) m0) s
      = match lastWith (fun t => keep t && (key t == s)) rows with
        | some t => some (val t)
        | none => mapGet m0 s := by
  induction rows generalizing m0 with
  | nil => rfl
  | cons t rest ih =>
    simp only [List.foldl_cons, lastWith]
    rw [ih]
    cases hrest : lastWith (fun t => keep t && (key t == s)) rest with
    | some u => simp
    | none =>
      simp only []
      by_cases hk : keep t
      · by_cases hs : key t = s
        · simp [hk, hs, mapGet_mapSet_self]
        · simp [hk, hs, mapGet_mapSet_ne _ _ _ _ (Ne.symm hs), beq_iff_eq]
      · simp [hk]

/-- Keeping keys unique is preserved by the generic upsert fold. -/
theorem nodup_mapKeys_upsertFold {β γ : Type} (keep : β → Bool) (key : β → String)
    (val : β → γ) (rows : List β) (m0 : List (String × γ)) (h : (mapKeys m0).Nodup) :
    (mapKeys (rows.foldl (fun m t => if keep t then mapSet m (key t) (val t) else m) m0)).Nodup := by
  induction rows generalizing m0 with
  | nil => exact h
  | cons t rest ih =>
    simp only [List.foldl_cons]
    by_cases hk : keep t
    · simp only [hk, if_true]
      exact ih _ (nodup_mapKeys_mapSet _ _ _ h)
    · simp only [hk, if_false]
      exact ih _ h

/-! ## Joiner lemmas -/


theorem buildIndex_eq_upsertFold (data : List Rec) :
    buildIndex data
      = data.foldl (fun m item =>
          if keptSKU item then mapSet m (normalizeSKU (getStr item "SKU")) item else m) [] := by
  unfold buildIndex
  congr 1
  funext m item
  unfold keptSKU getStr
  cases h : getOpt item "SKU" with
  | none => simp
  | some s =>
    by_cases hs : s = "" <;> simp [hs]

theorem nodup_mapKeys_buildIndex (data : List Rec) : (mapKeys (buildIndex data)).Nodup := by
  rw [buildIndex_eq_upsertFold]
  exact nodup_mapKeys_upsertFold _ _ _ _ _ (by simp [mapKeys])

/-- The index realizes, at every key, the last kept record normalizing to
that key (last-write-wins, records with falsy `SKU` skipped). -/
theorem mapGet_buildIndex (data : List Rec) (k : String) :
    mapGet (buildIndex data) k
      = lastWith (fun r => keptSKU r && (normalizeSKU (getStr r "SKU") == k)) data := by
  rw [buildIndex_eq_upsertFold, mapGet_upsertFold]
  cases lastWith (fun r => keptSKU r && (normalizeSKU (getStr r "SKU") == k)) data <;> rfl

theorem mergeLoopT_eq (dm pm : List (String × Rec)) (h : (mapKeys dm).Nodup) :
    mergeLoopT dm pm
      = (dm.map (fun q =>
           match mapGet pm q.1 with
           | some pi => (Branch.both, mergeBoth q.1 q.2 pi)
           | none => (Branch.primaryOnly, mergePrimaryOnly q.1 q.2)),
         pm.filter (fun q => !((mapKeys dm).contains q.1))) := by
  induction dm generalizing pm with
  | nil =>
    simp [mergeLoopT, mapKeys]
  | cons e rest ih =>
    obtain ⟨k, d⟩ := e
    rw [mapKeys_cons] at h
    have hk : k ∉ mapKeys rest := (List.nodup_cons.mp h).1
    have hrest : (mapKeys rest).Nodup := (List.nodup_cons.mp h).2
    have hmapeq : ∀ (pm' : List (String × Rec)),
        rest.map (fun q =>
          match mapGet (mapDelete pm' k) q.1 with
          | some pi => (Branch.both, mergeBoth q.1 q.2 pi)
          | none => (Branch.primaryOnly, mergePrimaryOnly q.1 q.2))
        = rest.map (fun q =>
          match mapGet pm' q.1 with
          | some pi => (Branch.both, mergeBoth q.1 q.2 pi)
          | none => (Branch.primaryOnly, mergePrimaryOnly q.1 q.2)) := by
      intro pm'
      refine List.map_congr_left (fun q hq => ?_)
      have hne : q.1 ≠ k := by
        intro he
        exact hk (he ▸ (List.mem_map.mpr ⟨q, hq, rfl⟩))
      rw [mapGet_mapDelete_ne _ _ _ hne]
    cases hget : mapGet pm k with
    | some pi =>
      have hred : mergeLoopT ((k, d) :: rest) pm
          = ((Branch.both, mergeBoth k d pi) :: (mergeLoopT rest (mapDelete pm k)).1,
             (mergeLoopT rest (mapDelete pm k)).2) := by
        simp only [mergeLoopT, hget]
      rw [hred, ih _ hrest]
      simp only [hmapeq]
      rw [Prod.mk.injEq]
      constructor
      · rw [List.map_cons, hget]
      · rw [mapDelete, List.filter_filter]
        refine List.filter_congr (fun q hq => ?_)
        rw [mapKeys_cons, List.contains_cons]
        cases hq1 : (q.1 == k) <;> cases hq2 : (mapKeys rest).contains q.1 <;> rfl
    | none =>
      have hred : mergeLoopT ((k, d) :: rest) pm
          = ((Branch.primaryOnly, mergePrimaryOnly k d) :: (mergeLoopT rest pm).1,
             (mergeLoopT rest pm).2) := by
        simp only [mergeLoopT, hget]
      rw [hred, ih _ hrest]
      rw [Prod.mk.injEq]
      constructor
      · rw [List.map_cons, hget]
      · refine List.filter_congr (fun q hq => ?_)
        have hne : q.1 ≠ k := by
          intro he
          have : k ∈ mapKeys pm := he ▸ (List.mem_map.mpr ⟨q, hq, rfl⟩)
          exact ((mapGet_eq_none_iff pm k).mp hget) this
        rw [mapKeys_cons, List.contains_cons]
        have : (q.1 == k) = false := by simpa using hne
        rw [this]
        simp

/-- `mergeFiles` without the intermediate mutable state: the primary index
mapped through the two primary branches, then the non-consumed secondary
index entries mapped through the secondary-only branch. -/
theorem mergeFilesTagged_eq (deData productData : List Rec) :
    mergeFilesTagged deData productData
      = (buildIndex deData).map (fun q =>
           match mapGet (buildIndex productData) q.1 with
           | some pi => (Branch.both, mergeBoth q.1 q.2 pi)
           | none => (Branch.primaryOnly, mergePrimaryOnly q.1 q.2))
        ++ ((buildIndex productData).filter
              (fun q => !((mapKeys (buildIndex deData)).contains q.1))).map
            (fun q => (Branch.secondaryOnly, mergeSecondaryOnly q.1 q.2)) := by
  show (mergeLoopT (buildIndex deData) (buildIndex productData)).1
      ++ ((mergeLoopT (buildIndex deData) (buildIndex productData)).2).map
          (fun q => (Branch.secondaryOnly, mergeSecondaryOnly q.1 q.2)) = _
  rw [mergeLoopT_eq _ _ (nodup_mapKeys_buildIndex deData)]

theorem getStr_mergeBoth_SKU (k : String) (d p : Rec) :
    getStr (mergeBoth k d p) "SKU" = k := rfl

theorem getStr_mergePrimaryOnly_SKU (k : String) (d : Rec) :
    getStr (mergePrimaryOnly k d) "SKU" = k := rfl

theorem getStr_mergeSecondaryOnly_SKU (k : String) (p : Rec) :
    getStr (mergeSecondaryOnly k p) "SKU" = k := rfl

/-- The `SKU` column of the unified output: the primary-index keys in
order, then the unconsumed secondary-index keys in order. -/
theorem skus_mergeFiles (deData productData : List Rec) :
    (mergeFiles deData productData).map (fun r => getStr r "SKU")
      = mapKeys (buildIndex deData)
        ++ mapKeys ((buildIndex productData).filter
              (fun q => !((mapKeys (buildIndex deData)).contains q.1))) := by
  unfold mergeFiles
  rw [mergeFilesTagged_eq]
  simp only [List.map_append, List.map_map]
  congr 1
  refine List.map_congr_left (fun q hq => ?_)
  cases hget : mapGet (buildIndex productData) q.1 with
  | some pi => simp [hget, Function.comp, getStr_mergeBoth_SKU]
  | none => simp [hget, Function.comp, getStr_mergePrimaryOnly_SKU]

theorem mem_mapKeys_filter_iff (pm : List (String × Rec)) (dk : List String) (k : String) :
    k ∈ mapKeys (pm.filter (fun q => !(dk.contains q.1)))
      ↔ k ∈ mapKeys pm ∧ k ∉ dk := by
  unfold mapKeys
  constructor
  · intro h
    obtain ⟨q, hq, hk⟩ := List.mem_map.mp h
    obtain ⟨hqm, hpred⟩ := List.mem_filter.mp hq
    subst hk
    refine ⟨List.mem_map.mpr ⟨q, hqm, rfl⟩, ?_⟩
    intro hmem
    have hc : dk.contains q.1 = true := List.elem_iff.mpr hmem
    rw [hc] at hpred
    exact absurd hpred (by simp)
  · intro ⟨h1, h2⟩
    obtain ⟨q, hq, hk⟩ := List.mem_map.mp h1
    subst hk
    refine List.mem_map.mpr ⟨q, List.mem_filter.mpr ⟨hq, ?_⟩, rfl⟩
    have hc : dk.contains q.1 = false := by
      rw [← Bool.not_eq_true]
      intro hcc
      exact h2 (List.elem_iff.mp hcc)
    rw [hc]
    rfl

theorem mem_skus_mergeFiles_iff (deData productData : List Rec) (k : String) :
    k ∈ (mergeFiles deData productData).map (fun r => getStr r "SKU")
      ↔ k ∈ mapKeys (buildIndex deData) ∨ k ∈ mapKeys (buildIndex productData) := by
  rw [skus_mergeFiles, List.mem_append, mem_mapKeys_filter_iff]
  by_cases h : k ∈ mapKeys (buildIndex deData) <;> simp [h]

theorem nodup_skus_mergeFiles (deData productData : List Rec) :
    ((mergeFiles deData productData).map (fun r => getStr r "SKU")).Nodup := by
  rw [skus_mergeFiles]
  refine List.Nodup.append (nodup_mapKeys_buildIndex deData) ?_ ?_
  · exact ((List.filter_sublist _).map _).nodup (nodup_mapKeys_buildIndex productData)
  · intro a ha hb
    exact ((mem_mapKeys_filter_iff _ _ a).mp hb).2 ha

/-! ## Claim C1 -/

/-- C1: every normalized key that occurs in either lookup index appears in
the join output exactly once; each output record is produced by the branch
matching which index sets contain its key; and for disjoint key sets the
output length is the number of distinct primary keys plus the number of
distinct secondary keys. -/
theorem mergeFiles_key_partition (deData productData : List Rec) :
    (∀ k, ((mergeFiles deData productData).map (fun r => getStr r "SKU")).count k
        = if k ∈ mapKeys (buildIndex deData) ∨ k ∈ mapKeys (buildIndex productData)
          then 1 else 0)
    ∧ (∀ b r, (b, r) ∈ mergeFilesTagged deData productData →
        (b = Branch.both
            ↔ getStr r "SKU" ∈ mapKeys (buildIndex deData)
              ∧ getStr r "SKU" ∈ mapKeys (buildIndex productData))
        ∧ (b = Branch.primaryOnly
            ↔ getStr r "SKU" ∈ mapKeys (buildIndex deData)
              ∧ getStr r "SKU" ∉ mapKeys (buildIndex productData))
        ∧ (b = Branch.secondaryOnly
            ↔ getStr r "SKU" ∉ mapKeys (buildIndex deData)
              ∧ getStr r "SKU" ∈ mapKeys (buildIndex productData)))
    ∧ ((mapKeys (buildIndex deData)).Disjoint (mapKeys (buildIndex productData)) →
        (mergeFiles deData productData).length
          = (mapKeys (buildIndex deData)).length + (mapKeys (buildIndex productData)).length) := by
  refine ⟨?_, ?_, ?_⟩
  · intro k
    by_cases h : k ∈ mapKeys (buildIndex deData) ∨ k ∈ mapKeys (buildIndex productData)
    · rw [if_pos h]
      exact List.count_eq_one_of_mem (nodup_skus_mergeFiles _ _)
        ((mem_skus_mergeFiles_iff _ _ k).mpr h)
    · rw [if_neg h]
      exact List.count_eq_zero.mpr (fun hmem => h ((mem_skus_mergeFiles_iff _ _ k).mp hmem))
  · intro b r hmem
    rw [mergeFilesTagged_eq] at hmem
    rcases List.mem_append.mp hmem with hA | hB
    · obtain ⟨q, hq, heq⟩ := List.mem_map.mp hA
      have hkq : q.1 ∈ mapKeys (buildIndex deData) := List.mem_map.mpr ⟨q, hq, rfl⟩
      cases hget : mapGet (buildIndex productData) q.1 with
      | some pi =>
        rw [hget] at heq
        cases heq
        have hpk : q.1 ∈ mapKeys (buildIndex productData) := by
          by_contra hc
          have hnone := (mapGet_eq_none_iff _ _).mpr hc
          rw [hnone] at hget
          exact Option.noConfusion hget
        simp [getStr_mergeBoth_SKU, hkq, hpk]
      | none =>
        rw [hget] at heq
        cases heq
        have hpk : q.1 ∉ mapKeys (buildIndex productData) := (mapGet_eq_none_iff _ _).mp hget
        simp [getStr_mergePrimaryOnly_SKU, hkq, hpk]
    · obtain ⟨q, hq, heq⟩ := List.mem_map.mp hB
      cases heq
      obtain ⟨hqm, hpred⟩ := List.mem_filter.mp hq
      have hpk : q.1 ∈ mapKeys (buildIndex productData) := List.mem_map.mpr ⟨q, hqm, rfl⟩
      have hdk : q.1 ∉ mapKeys (buildIndex deData) := by
        intro hmem2
        have hc : (mapKeys (buildIndex deData)).contains q.1 = true := List.elem_iff.mpr hmem2
        rw [hc] at hpred
        exact absurd hpred (by simp)
      simp [getStr_mergeSecondaryOnly_SKU, hpk, hdk]
  · intro hdisj
    have hfil : (buildIndex productData).filter
        (fun q => !((mapKeys (buildIndex deData)).contains q.1)) = buildIndex productData := by
      apply List.filter_eq_self.mpr
      intro q hq
      have hpk : q.1 ∈ mapKeys (buildIndex productData) := List.mem_map.mpr ⟨q, hq, rfl⟩
      have hnk : q.1 ∉ mapKeys (buildIndex deData) := fun hc => hdisj hc hpk
      have hc : (mapKeys (buildIndex deData)).contains q.1 = false := by
        rw [← Bool.not_eq_true]
        intro hcc
        exact hnk (List.elem_iff.mp hcc)
      rw [hc]
      rfl
    have hlen : (mergeFiles deData productData).length
        = ((mergeFiles deData productData).map (fun r => getStr r "SKU")).length :=
      (List.length_map _ _).symm
    rw [hlen, skus_mergeFiles, hfil, List.length_append]



/-- C1 witness: the disjoint-keys length equation instantiated at concrete
disjoint inputs. -/
theorem mergeFiles_key_partition_witness :
    (mergeFiles deW1 pW1).length
      = (mapKeys (buildIndex deW1)).length + (mapKeys (buildIndex pW1)).length :=
  (mergeFiles_key_partition deW1 pW1).2.2 (by
    intro a ha hb
    have hd : mapKeys (buildIndex deW1) = ["A1"] := by decide
    have hp : mapKeys (buildIndex pW1) = ["B2"] := by decide
    rw [hd] at ha
    rw [hp] at hb
    have h1 : a = "A1" := by simpa using ha
    have h2 : a = "B2" := by simpa using hb
    rw [h1] at h2
    exact absurd h2 (by decide))

/-! ## Claim C2 -/





/-- C2 counterexample: with primary `[A, B]` and secondary `[B]`, the
output is `[primary-only A, both-present B]` — a primary-only record
precedes a both-present record, so the claimed grouping (all both-present
records first) is false. -/
theorem mergeFiles_order_counterexample :
    (mergeFilesTagged deC2 pC2).map (fun q => q.1) = [Branch.primaryOnly, Branch.both]
    ∧ groupedOrder ((mergeFilesTagged deC2 pC2).map (fun q => q.1)) = false := by
  refine ⟨by decide, by decide⟩

/-- C2 amended: the output is ordered by primary-index insertion order for
all primary-keyed records — both-present and primary-only interleaved
according to whether each key is also in the secondary index — followed by
the secondary-only records in secondary-index insertion order. -/
theorem mergeFiles_order_amended (deData productData : List Rec) :
    (mergeFiles deData productData).map (fun r => getStr r "SKU")
        = mapKeys (buildIndex deData)
          ++ mapKeys ((buildIndex productData).filter
                (fun q => !((mapKeys (buildIndex deData)).contains q.1)))
    ∧ (mergeFilesTagged deData productData).map (fun q => q.1)
        = (mapKeys (buildIndex deData)).map (fun k =>
            if k ∈ mapKeys (buildIndex productData) then Branch.both else Branch.primaryOnly)
          ++ ((buildIndex productData).filter
                (fun q => !((mapKeys (buildIndex deData)).contains q.1))).map
              (fun _ => Branch.secondaryOnly) := by
  refine ⟨skus_mergeFiles deData productData, ?_⟩
  rw [mergeFilesTagged_eq]
  simp only [List.map_append, List.map_map]
  congr 1
  have hmk : (mapKeys (buildIndex deData)).map
      (fun k => if k ∈ mapKeys (buildIndex productData) then Branch.both else Branch.primaryOnly)
      = (buildIndex deData).map
          ((fun k => if k ∈ mapKeys (buildIndex productData) then Branch.both
            else Branch.primaryOnly) ∘ (fun p => p.1)) := by
    unfold mapKeys
    rw [List.map_map]
  rw [hmk]
  refine List.map_congr_left (fun q hq => ?_)
  cases hget : mapGet (buildIndex productData) q.1 with
  | some pi =>
    have hpk : q.1 ∈ mapKeys (buildIndex productData) := by
      by_contra hc
      have hnone := (mapGet_eq_none_iff _ _).mpr hc
      rw [hnone] at hget
      exact Option.noConfusion hget
    simp [hget, Function.comp, hpk]
  | none =>
    have hpk : q.1 ∉ mapKeys (buildIndex productData) := (mapGet_eq_none_iff _ _).mp hget
    simp [hget, Function.comp, hpk]

/-! ## Claim C3 -/

/-- C3: `normalizeSKU` trims, strips one leading `b34` case-insensitively
if present, strips one trailing `v1` case-insensitively if present, and
trims again (it agrees with the spec-worded pipeline on every input, so
no input raises); and the four concrete examples hold. -/
theorem normalizeSKU_spec :
    (∀ s, normalizeSKU s = normalizeSpec s)
    ∧ normalizeSKU "B34ABC123V1" = "ABC123"
    ∧ normalizeSKU "abc" = "abc"
    ∧ normalizeSKU "" = ""
    ∧ normalizeSKU "b34" = "" := by
  refine ⟨?_, by decide, by decide, by decide, by decide⟩
  intro s
  by_cases h : s = ""
  · subst h
    decide
  · have h3 : "b34".length = 3 := rfl
    have h2 : "v1".length = 2 := rfl
    simp only [normalizeSKU, normalizeSpec, stripLeadCI, stripTailCI, if_neg h, h3, h2]

/-! ## Claim C4 -/



/-- C4 counterexample: at the claim's own example the merged Title is
`"X1 Widget"`, which still contains `"X1"` — the identifier used for
stripping is the raw primary SKU `"B34X1V1"`, which does not occur in the
brand-stripped name, so no removal happens and the claim's assertion that
the Title excludes `"X1"` is false. -/
theorem mergeBoth_title_counterexample :
    (mergeFiles [deC4] [pC4]).map (fun r => getStr r "Title") = ["X1 Widget"]
    ∧ containsStr "X1 Widget" "X1" = true := by
  refine ⟨by decide, by decide⟩

/-- C4 amended: the both-present Title is the secondary name with the
secondary brand stripped when the name starts with it and the first
occurrence of the raw identifier (primary's raw SKU preferred, else
secondary's) removed when the brand-stripped name contains it; at the
example this yields `"X1 Widget"`, which excludes `"Acme"` but retains
`"X1"` because the raw primary SKU `"B34X1V1"` does not occur in it. -/
theorem mergeBoth_title_amended :
    (∀ k d p, getStr (mergeBoth k d p) "Title" = composeTitleBoth d p)
    ∧ composeTitleBoth deC4 pC4 = "X1 Widget"
    ∧ containsStr "X1 Widget" "Acme" = false
    ∧ containsStr "X1 Widget" "X1" = true := by
  refine ⟨fun k d p => rfl, by decide, by decide, by decide⟩

/-! ## Extraction Batcher lemmas -/

theorem enumMapFrom_length {α β : Type} (f : Nat → α → β) (s : Nat) (l : List α) :
    (enumMapFrom f s l).length = l.length := by
  induction l generalizing s with
  | nil => rfl
  | cons a rest ih => simp [enumMapFrom, ih]

theorem enumMapFrom_append {α β : Type} (f : Nat → α → β) (s : Nat) (l₁ l₂ : List α) :
    enumMapFrom f s (l₁ ++ l₂) = enumMapFrom f s l₁ ++ enumMapFrom f (s + l₁.length) l₂ := by
  induction l₁ generalizing s with
  | nil => simp [enumMapFrom]
  | cons a rest ih =>
    have harith : s + 1 + rest.length = s + (rest.length + 1) := by omega
    simp [enumMapFrom, ih (s + 1), harith]

theorem rowIndexes_enumMapFrom (c : String) (s : Nat) (l : List Rec) :
    (enumMapFrom (batchRow c) s l).map (fun b => b.row_index) = List.range' s l.length := by
  induction l generalizing s with
  | nil => rfl
  | cons a rest ih => simp [enumMapFrom, batchRow, List.range'_succ, ih]

/-- Joining the consecutive fixed-size chunks, each enumerated from its
global start index, recovers the whole globally-enumerated list. -/
theorem chunksFlatten {α β : Type} (f : Nat → α → β) :
    ∀ (N : Nat) (l : List α), l.length ≤ N → ∀ (s : Nat),
      ((List.range (totalChunks l.length)).map (fun i =>
          enumMapFrom f (s + i * ROWS_PER_FILE)
            ((l.drop (i * ROWS_PER_FILE)).take ROWS_PER_FILE))).flatten
        = enumMapFrom f s l := by
  have hzero : ∀ (s : Nat),
      ((List.range (totalChunks ([] : List α).length)).map (fun i =>
          enumMapFrom f (s + i * ROWS_PER_FILE)
            ((([] : List α).drop (i * ROWS_PER_FILE)).take ROWS_PER_FILE))).flatten
        = enumMapFrom f s [] := by
    intro s
    have h0 : totalChunks ([] : List α).length = 0 := by
      rw [List.length_nil]
      decide
    rw [h0]
    rfl
  intro N
  induction N with
  | zero =>
    intro l hl s
    have hnil : l = [] := List.length_eq_zero.mp (Nat.le_zero.mp hl)
    subst hnil
    exact hzero s
  | succ N ih =>
    intro l hl s
    by_cases hle : l.length ≤ ROWS_PER_FILE
    · by_cases h0 : l.length = 0
      · have hnil : l = [] := List.length_eq_zero.mp h0
        subst hnil
        exact hzero s
      · have hT : totalChunks l.length = 1 := by
          unfold totalChunks ROWS_PER_FILE
          unfold ROWS_PER_FILE at hle
          omega
        rw [hT, show List.range 1 = [0] from rfl]
        simp [List.take_of_length_le hle]
    · push_neg at hle
      have h600 : ROWS_PER_FILE = 600 := rfl
      have hT : totalChunks l.length = totalChunks ((l.drop ROWS_PER_FILE).length) + 1 := by
        rw [List.length_drop]
        unfold totalChunks
        rw [h600] at hle ⊢
        omega
      rw [hT, List.range_succ_eq_map, List.map_cons, List.map_map]
      have htail : (List.range (totalChunks ((l.drop ROWS_PER_FILE).length))).map
            ((fun i => enumMapFrom f (s + i * ROWS_PER_FILE)
              ((l.drop (i * ROWS_PER_FILE)).take ROWS_PER_FILE)) ∘ Nat.succ)
          = (List.range (totalChunks ((l.drop ROWS_PER_FILE).length))).map
            (fun j => enumMapFrom f ((s + ROWS_PER_FILE) + j * ROWS_PER_FILE)
              (((l.drop ROWS_PER_FILE).drop (j * ROWS_PER_FILE)).take ROWS_PER_FILE)) := by
        refine List.map_congr_left (fun j hj => ?_)
        have e1 : s + (Nat.succ j) * ROWS_PER_FILE = (s + ROWS_PER_FILE) + j * ROWS_PER_FILE := by
          rw [h600]
          omega
        have e2 : l.drop ((Nat.succ j) * ROWS_PER_FILE)
            = (l.drop ROWS_PER_FILE).drop (j * ROWS_PER_FILE) := by
          rw [List.drop_drop]
          congr 1
          rw [h600]
          omega
        simp only [Function.comp]
        rw [e1, e2]
      rw [htail, List.flatten_cons,
        ih (l.drop ROWS_PER_FILE) (by rw [List.length_drop, h600]; rw [h600] at hle; omega)
          (s + ROWS_PER_FILE)]
      have e4 : (l.take ROWS_PER_FILE).length = ROWS_PER_FILE := by
        rw [List.length_take, h600]
        rw [h600] at hle
        omega
      conv =>
        rhs
        rw [← List.take_append_drop ROWS_PER_FILE l]
      rw [enumMapFrom_append, e4]
      simp

/-- The batches for any column rejoin to the single globally-enumerated
row list. -/
theorem batchesFor_flatten (data : List Rec) (c : String) :
    (batchesFor data c).flatten = enumMapFrom (batchRow c) 0 data := by
  unfold batchesFor
  by_cases hc : c = "description"
  · rw [if_pos hc]
    have hbody : (List.range (totalChunks data.length)).map (descChunk data c)
        = (List.range (totalChunks data.length)).map (fun i =>
            enumMapFrom (batchRow c) (0 + i * ROWS_PER_FILE)
              ((data.drop (i * ROWS_PER_FILE)).take ROWS_PER_FILE)) := by
      refine List.map_congr_left (fun i hi => ?_)
      unfold descChunk
      rw [Nat.zero_add]
    rw [hbody, chunksFlatten (batchRow c) data.length data le_rfl 0]
  · rw [if_neg hc]
    simp

/-! ## Claim C5 -/

/-- C5: every requested column other than the designated large-text column
yields exactly one batch covering all rows in order; the description
batches partition the globally-enumerated rows in order; each description
chunk's `row_index` values are the globally contiguous range starting at
its chunk start; and 1450 rows produce exactly 3 description batches of
sizes 600, 600, 250. -/
theorem extractColumns_batching (data : List Rec) :
    (∀ c, c ∈ columnsToExtract → c ≠ "description" →
        batchesFor data c = [enumMapFrom (batchRow c) 0 data])
    ∧ (batchesFor data "description").flatten = enumMapFrom (batchRow "description") 0 data
    ∧ (∀ i, (descChunk data "description" i).map (fun b => b.row_index)
        = List.range' (i * ROWS_PER_FILE)
            (min ROWS_PER_FILE (data.length - i * ROWS_PER_FILE)))
    ∧ (data.length = 1450 →
        (batchesFor data "description").map List.length = [600, 600, 250]) := by
  refine ⟨?_, batchesFor_flatten data "description", ?_, ?_⟩
  · intro c hc hne
    unfold batchesFor
    rw [if_neg hne]
  · intro i
    unfold descChunk
    rw [rowIndexes_enumMapFrom, List.length_take, List.length_drop]
  · intro h1450
    have hT : totalChunks data.length = 3 := by
      rw [h1450]
      rfl
    unfold batchesFor
    rw [if_pos rfl, hT, show List.range 3 = [0, 1, 2] by decide]
    simp only [List.map_cons, List.map_nil]
    unfold descChunk
    rw [enumMapFrom_length, enumMapFrom_length, enumMapFrom_length,
      List.length_take, List.length_take, List.length_take,
      List.length_drop, List.length_drop, List.length_drop, h1450]
    norm_num [ROWS_PER_FILE]


/-- C5 witness: at 1450 concrete rows the description batches have sizes
600, 600, 250. -/
theorem extractColumns_batching_witness :
    (batchesFor dataW5 "description").map List.length = [600, 600, 250] :=
  (extractColumns_batching dataW5).2.2.2 (by
    show (List.replicate 1450 ([("SKU", "a")] : Rec)).length = 1450
    rw [List.length_replicate])

/-! ## Claim C6 -/

/-- C6: for non-empty data, extraction fails producing no batches at all
exactly when some requested column is absent from the first record's key
set, and otherwise produces the batch lists for all requested columns. -/
theorem extractColumns_missing_column (data : List Rec) (hne : data ≠ []) :
    ((∃ c, c ∈ columnsToExtract ∧ c ∉ mapKeys (data.headD []))
        ↔ extractColumns data = none)
    ∧ ((∀ c, c ∈ columnsToExtract → c ∈ mapKeys (data.headD [])) →
        extractColumns data
          = some (columnsToExtract.map (fun col => (col, batchesFor data col)))) := by
  have hempty : data.isEmpty = false := by
    cases data with
    | nil => exact absurd rfl hne
    | cons a rest => rfl
  have hmiss : ∀ c, c ∈ columnsToExtract.filter
        (fun col => !((mapKeys (data.headD [])).contains col))
      ↔ (c ∈ columnsToExtract ∧ c ∉ mapKeys (data.headD [])) := by
    intro c
    rw [List.mem_filter]
    constructor
    · intro ⟨h1, h2⟩
      refine ⟨h1, fun hmem => ?_⟩
      have hc : (mapKeys (data.headD [])).contains c = true := List.elem_iff.mpr hmem
      rw [hc] at h2
      exact absurd h2 (by simp)
    · intro ⟨h1, h2⟩
      refine ⟨h1, ?_⟩
      have hc : (mapKeys (data.headD [])).contains c = false := by
        rw [← Bool.not_eq_true]
        intro hcc
        exact h2 (List.elem_iff.mp hcc)
      rw [hc]
      rfl
  unfold extractColumns
  rw [hempty]
  simp only [Bool.false_eq_true, if_false]
  constructor
  · constructor
    · intro ⟨c, hc, hnotin⟩
      have hmem : c ∈ columnsToExtract.filter
          (fun col => !((mapKeys (data.headD [])).contains col)) :=
        (hmiss c).mpr ⟨hc, hnotin⟩
      have hpos : 0 < (columnsToExtract.filter
          (fun col => !((mapKeys (data.headD [])).contains col))).length :=
        List.length_pos_of_mem hmem
      rw [if_pos hpos]
    · intro hnone
      by_cases hpos : 0 < (columnsToExtract.filter
          (fun col => !((mapKeys (data.headD [])).contains col))).length
      · obtain ⟨c, hc⟩ := List.exists_mem_of_length_pos hpos
        obtain ⟨h1, h2⟩ := (hmiss c).mp hc
        exact ⟨c, h1, h2⟩
      · rw [if_neg hpos] at hnone
        exact Option.noConfusion hnone
  · intro hall
    have hnil : columnsToExtract.filter
        (fun col => !((mapKeys (data.headD [])).contains col)) = [] := by
      rw [List.filter_eq_nil_iff]
      intro c hc
      have hmem := hall c hc
      have hcon : (mapKeys (data.headD [])).contains c = true := List.elem_iff.mpr hmem
      rw [hcon]
      simp
    rw [hnil]
    simp



/-- C6 witness: extraction fails at concrete data missing `Title`, and
succeeds at concrete data carrying all four columns. -/
theorem extractColumns_missing_column_witness :
    extractColumns dataW6bad = none
    ∧ extractColumns dataW6good
        = some (columnsToExtract.map (fun col => (col, batchesFor dataW6good col))) :=
  ⟨((extractColumns_missing_column dataW6bad (by decide)).1).mp
      ⟨"Title", by decide, by decide⟩,
    (extractColumns_missing_column dataW6good (by decide)).2 (by decide)⟩

/-! ## Claim C7 -/

/-- C7: the code at the failing input. `"Beskrivning"` is in the variant
list for the description column, yet a file containing that exact header
does not resolve by name: headers are lowercased before being compared
with the list entries, and the entry `"Beskrivning"` (capital B) can never
equal a lowercased header, so resolution falls back to the positional 3rd
field. -/
theorem dataKey_beskrivning_bug :
    (columnTranslations "description").contains "Beskrivning" = true
    ∧ dataKeyFor "description" ["row_index", "SKU", "Notes", "Beskrivning"] = some "Notes"
    ∧ ∀ k, k ∈ ["Beskrivning", "beskrivning", "BESKRIVNING"] →
        dataKeyFor "description" ["row_index", "SKU", "Notes", k] = some "Notes" := by
  refine ⟨by decide, by decide, by decide⟩

/-! ## Claim C8 -/

/-- C8: a row is dropped exactly when its resolved value is undefined; a
kept row defaults a missing row-index to `'0'` and a missing identifier to
the empty string (so neither causes a drop); and the import raises the
empty-result failure iff zero rows survive across all supplied files. -/
theorem importTranslations_drop_and_empty (columnName : String) :
    (∀ row : Rec, standardizeRow columnName row = none
        ↔ optLookup row (dataKeyFor columnName (mapKeys row)) = none)
    ∧ (∀ row : Rec, ∀ v, optLookup row (dataKeyFor columnName (mapKeys row)) = some v →
        standardizeRow columnName row
          = some { row_index := (optLookup row (rowIndexKeyFor (mapKeys row))).getD "0",
                   SKU := (optLookup row (skuKeyFor (mapKeys row))).getD "",
                   value := v })
    ∧ (∀ files : List (List Rec),
        (importTranslations columnName files = none
          ↔ ∀ f ∈ files, f.filterMap (standardizeRow columnName) = [])) := by
  refine ⟨?_, ?_, ?_⟩
  · intro row
    unfold standardizeRow
    cases h : optLookup row (dataKeyFor columnName (mapKeys row)) <;> simp [h]
  · intro row v h
    simp only [standardizeRow, h]
  · intro files
    have hiff : ∀ rows : List TRow,
        ((if rows.isEmpty then (none : Option (List TRow)) else some (dedupeBySku rows)) = none
          ↔ rows = []) := by
      intro rows
      cases rows with
      | nil => simp
      | cons t rest => simp
    show (if (if 1 < files.length
            then ((files.map (fun f => f.filterMap (standardizeRow columnName))).flatten).mergeSort
              rowLE
            else (files.map (fun f => f.filterMap (standardizeRow columnName))).flatten).isEmpty
          then none
          else some (dedupeBySku (if 1 < files.length
            then ((files.map (fun f => f.filterMap (standardizeRow columnName))).flatten).mergeSort
              rowLE
            else (files.map (fun f => f.filterMap (standardizeRow columnName))).flatten))) = none
        ↔ _
    rw [hiff]
    have hsorted : (if 1 < files.length
          then ((files.map (fun f => f.filterMap (standardizeRow columnName))).flatten).mergeSort
            rowLE
          else (files.map (fun f => f.filterMap (standardizeRow columnName))).flatten) = []
        ↔ (files.map (fun f => f.filterMap (standardizeRow columnName))).flatten = [] := by
      by_cases h : 1 < files.length
      · rw [if_pos h]
        have hperm := List.mergeSort_perm
          ((files.map (fun f => f.filterMap (standardizeRow columnName))).flatten) rowLE
        constructor
        · intro hnil
          rw [hnil] at hperm
          exact List.perm_nil.mp hperm.symm
        · intro hnil
          rw [hnil]
          rw [hnil] at hperm
          exact List.perm_nil.mp hperm
      · rw [if_neg h]
    rw [hsorted, List.flatten_eq_nil_iff]
    constructor
    · intro h f hf
      exact h _ (List.mem_map.mpr ⟨f, hf, rfl⟩)
    · intro h l hl
      obtain ⟨f, hf, rfl⟩ := List.mem_map.mp hl
      exact h f hf

/-- C8 witness: a file whose single row has no resolvable value column
(only one header, no positional 3rd field) drops its row, and the import
over just that file raises the empty-result failure. -/
theorem importTranslations_drop_and_empty_witness :
    standardizeRow "Title" [("foo", "x")] = none
    ∧ importTranslations "Title" [[[("foo", "x")]]] = none :=
  ⟨((importTranslations_drop_and_empty "Title").1 [("foo", "x")]).mpr (by decide),
    ((importTranslations_drop_and_empty "Title").2.2 [[[("foo", "x")]]]).mpr (by decide)⟩

/-! ## Round-trip lemmas (C9) -/


/-- Re-importing an exported row standardizes to exactly its three fields:
for each of the four exported columns the headers `row_index`, `SKU` and
the column name all resolve by name. -/
theorem standardizeRow_batchRowToRec (c : String) (hc : c ∈ columnsToExtract) (b : BRow) :
    standardizeRow c (batchRowToRec c b) = some (trOf b) := by
  fin_cases hc <;> rfl

theorem filterMap_standardize_batch (c : String) (hc : c ∈ columnsToExtract) (bs : List BRow) :
    (bs.map (batchRowToRec c)).filterMap (standardizeRow c) = bs.map trOf := by
  induction bs with
  | nil => rfl
  | cons b rest ih =>
    rw [List.map_cons, List.filterMap_cons, standardizeRow_batchRowToRec c hc b,
      List.map_cons, ih]

theorem filter_enumMapFrom_sku_nil (c : String) (s : String) :
    ∀ (l : List Rec) (s0 : Nat), (∀ r ∈ l, getStr r "SKU" ≠ s) →
      (enumMapFrom (batchRow c) s0 l).filter (fun b => b.SKU == s) = [] := by
  intro l
  induction l with
  | nil => intro s0 h; rfl
  | cons a rest ih =>
    intro s0 h
    simp only [enumMapFrom, List.filter_cons]
    have hb : ((batchRow c s0 a).SKU == s) = false := by
      have hne := h a (List.mem_cons_self a rest)
      exact beq_eq_false_iff_ne.mpr hne
    rw [if_neg (by simp [hb])]
    exact ih (s0 + 1) (fun r hr => h r (List.mem_cons_of_mem a hr))

/-- With pairwise-distinct non-empty identifiers, the exported rows with a
given non-empty identifier form exactly the singleton coming from the one
data row carrying it. -/
theorem filter_enumMapFrom_sku_singleton (c : String) :
    ∀ (l : List Rec) (s0 : Nat) (r : Rec), r ∈ l → ∀ s, s = getStr r "SKU" → s ≠ "" →
      ((l.map (fun x => getStr x "SKU")).filter (fun x => !(x == ""))).Nodup →
      ∃ n, (enumMapFrom (batchRow c) s0 l).filter (fun b => b.SKU == s)
        = [{ row_index := n, SKU := s, value := getStr r c }] := by
  intro l
  induction l with
  | nil => intro s0 r hr; exact absurd hr (List.not_mem_nil r)
  | cons a rest ih =>
    intro s0 r hr s hs hne hnd
    have hfc : ((a :: rest).map (fun x => getStr x "SKU")).filter (fun x => !(x == ""))
        = if getStr a "SKU" = ""
          then (rest.map (fun x => getStr x "SKU")).filter (fun x => !(x == ""))
          else getStr a "SKU" :: (rest.map (fun x => getStr x "SKU")).filter
            (fun x => !(x == "")) := by
      rw [List.map_cons, List.filter_cons]
      by_cases h0 : getStr a "SKU" = "" <;> simp [h0]
    by_cases has : getStr a "SKU" = s
    · have ha0 : ¬ getStr a "SKU" = "" := by rw [has]; exact hne
      rw [hfc, if_neg ha0] at hnd
      obtain ⟨hnotin, hnd'⟩ := List.nodup_cons.mp hnd
      have hrest_no : ∀ x ∈ rest, getStr x "SKU" ≠ s := by
        intro x hx hxs
        apply hnotin
        rw [has]
        exact List.mem_filter.mpr
          ⟨List.mem_map.mpr ⟨x, hx, hxs⟩, by simp [hne]⟩
      have hval : getStr a c = getStr r c := by
        cases List.mem_cons.mp hr with
        | inl h => rw [h]
        | inr h => exact absurd hs.symm (hrest_no r h)
      refine ⟨s0, ?_⟩
      simp only [enumMapFrom, List.filter_cons]
      have hb : ((batchRow c s0 a).SKU == s) = true := by
        exact beq_iff_eq.mpr has
      rw [if_pos (by simp [hb]), filter_enumMapFrom_sku_nil c s rest (s0 + 1) hrest_no]
      show [batchRow c s0 a] = _
      unfold batchRow
      rw [has, hval]
    · have hr' : r ∈ rest := by
        cases List.mem_cons.mp hr with
        | inl h =>
          rw [← h] at has
          exact absurd hs.symm has
        | inr h => exact h
      have hnd' : ((rest.map (fun x => getStr x "SKU")).filter (fun x => !(x == ""))).Nodup := by
        by_cases ha0 : getStr a "SKU" = ""
        · rw [hfc, if_pos ha0] at hnd
          exact hnd
        · rw [hfc, if_neg ha0] at hnd
          exact (List.nodup_cons.mp hnd).2
      obtain ⟨n, hn⟩ := ih (s0 + 1) r hr' s hs hne hnd'
      refine ⟨n, ?_⟩
      simp only [enumMapFrom, List.filter_cons]
      have hb : ((batchRow c s0 a).SKU == s) = false := beq_eq_false_iff_ne.mpr has
      rw [if_neg (by simp [hb])]
      exact hn

theorem mapGet_buildSkuMap (rows : List TRow) (s : String) :
    mapGet (buildSkuMap rows) s
      = match lastWith (fun t => !(t.SKU == "") && (t.SKU == s)) rows with
        | some t => some t.value
        | none => none := by
  unfold buildSkuMap
  have hfun : (fun (m : List (String × String)) (row : TRow) =>
        if row.SKU = "" then m else mapSet m row.SKU row.value)
      = (fun m row => if !(row.SKU == "") then mapSet m row.SKU row.value else m) := by
    funext m row
    by_cases h : row.SKU = "" <;> simp [h]
  rw [hfun, mapGet_upsertFold]
  cases lastWith (fun t => !(t.SKU == "") && (t.SKU == s)) rows <;> rfl

theorem mapGet_dedupeFold (rows : List TRow) (s : String) :
    mapGet (rows.foldl (fun m row => if row.SKU = "" then m else mapSet m row.SKU row) []) s
      = lastWith (fun t => !(t.SKU == "") && (t.SKU == s)) rows := by
  have hfun : (fun (m : List (String × TRow)) (row : TRow) =>
        if row.SKU = "" then m else mapSet m row.SKU row)
      = (fun m row => if !(row.SKU == "") then mapSet m row.SKU row else m) := by
    funext m row
    by_cases h : row.SKU = "" <;> simp [h]
  rw [hfun, mapGet_upsertFold]
  cases lastWith (fun t => !(t.SKU == "") && (t.SKU == s)) rows <;> rfl

theorem nodup_mapKeys_dedupeFold (rows : List TRow) :
    (mapKeys (rows.foldl
      (fun m row => if row.SKU = "" then m else mapSet m row.SKU row) [])).Nodup := by
  have hfun : (fun (m : List (String × TRow)) (row : TRow) =>
        if row.SKU = "" then m else mapSet m row.SKU row)
      = (fun m row => if !(row.SKU == "") then mapSet m row.SKU row else m) := by
    funext m row
    by_cases h : row.SKU = "" <;> simp [h]
  rw [hfun]
  exact nodup_mapKeys_upsertFold _ _ _ _ _ (by simp [mapKeys])

theorem skuInv_dedupeFold (rows : List TRow) :
    ∀ (m0 : List (String × TRow)), (∀ q ∈ m0, (q.2).SKU = q.1) →
      ∀ q ∈ rows.foldl (fun m row => if row.SKU = "" then m else mapSet m row.SKU row) m0,
        (q.2).SKU = q.1 := by
  induction rows with
  | nil => intro m0 h q hq; exact h q hq
  | cons t rest ih =>
    intro m0 h q hq
    rw [List.foldl_cons] at hq
    by_cases ht : t.SKU = ""
    · rw [if_pos ht] at hq
      exact ih m0 h q hq
    · rw [if_neg ht] at hq
      refine ih _ ?_ q hq
      intro q0 hq0
      rcases mem_of_mem_mapSet _ _ _ _ hq0 with h0 | h0
      · exact h q0 h0
      · rw [h0]

theorem filter_eq_of_mapGet {α : Type} (m : List (String × α)) (s : String)
    (h : (mapKeys m).Nodup) :
    m.filter (fun q => q.1 == s)
      = match mapGet m s with
        | some v => [(s, v)]
        | none => [] := by
  induction m with
  | nil => rfl
  | cons p rest ih =>
    obtain ⟨hnotin, hrest⟩ := List.nodup_cons.mp (mapKeys_cons p rest ▸ h)
    rw [List.filter_cons, mapGet_cons]
    by_cases hp : p.1 = s
    · rw [if_pos (beq_iff_eq.mpr hp), if_pos hp]
      have hnil : rest.filter (fun q => q.1 == s) = [] := by
        rw [List.filter_eq_nil_iff]
        intro q hq hqs
        apply hnotin
        have hq1 : q.1 = p.1 := by rw [beq_iff_eq.mp hqs, hp]
        rw [← hq1]
        exact List.mem_map.mpr ⟨q, hq, rfl⟩
      rw [hnil]
      have : p = (s, p.2) := by
        obtain ⟨p1, p2⟩ := p
        simp at hp
        rw [hp]
      rw [this]
    · rw [if_neg (by simp [hp]), if_neg hp]
      exact ih hrest

theorem filter_values_dedupe (m : List (String × TRow)) (s : String)
    (hinv : ∀ q ∈ m, (q.2).SKU = q.1) :
    (m.map (fun q => q.2)).filter (fun t => t.SKU == s)
      = (m.filter (fun q => q.1 == s)).map (fun q => q.2) := by
  rw [List.filter_map]
  congr 1
  refine List.filter_congr (fun q hq => ?_)
  show ((q.2).SKU == s) = (q.1 == s)
  rw [hinv q hq]

/-- Dedupe keeps exactly the unique row for an identifier that occurs once. -/
theorem dedupe_filter_singleton (rows : List TRow) (s : String) (w : TRow) (hs : s ≠ "")
    (hfil : rows.filter (fun t => t.SKU == s) = [w]) :
    (dedupeBySku rows).filter (fun t => t.SKU == s) = [w] := by
  have hpp : (fun t : TRow => !(t.SKU == "") && (t.SKU == s)) = (fun t => t.SKU == s) := by
    funext t
    by_cases ht : t.SKU = s
    · simp [ht, hs]
    · simp [ht]
  have hlast : lastWith (fun t : TRow => !(t.SKU == "") && (t.SKU == s)) rows = some w := by
    rw [hpp]
    exact lastWith_of_filter_singleton _ _ _ hfil
  have hget : mapGet (rows.foldl
      (fun m row => if row.SKU = "" then m else mapSet m row.SKU row) []) s = some w := by
    rw [mapGet_dedupeFold, hlast]
  unfold dedupeBySku
  rw [filter_values_dedupe _ _ (skuInv_dedupeFold rows [] (by intro q hq; cases hq)),
    filter_eq_of_mapGet _ _ (nodup_mapKeys_dedupeFold rows), hget]
  rfl

/-- The complete lookup chain of the round trip: with pairwise-distinct
non-empty identifiers, the translation map built from a permutation of the
exported rows maps each row's identifier to its exported value. -/
theorem lookup_roundTrip (c : String) (data : List Rec) (r : Rec)
    (hr : r ∈ data) (hs : getStr r "SKU" ≠ "")
    (hnd : ((data.map (fun x => getStr x "SKU")).filter (fun x => !(x == ""))).Nodup)
    (rows : List TRow)
    (hperm : rows.Perm ((enumMapFrom (batchRow c) 0 data).map trOf)) :
    mapGet (buildSkuMap (dedupeBySku rows)) (getStr r "SKU") = some (getStr r c) := by
  obtain ⟨n, hn⟩ :=
    filter_enumMapFrom_sku_singleton c data 0 r hr (getStr r "SKU") rfl hs hnd
  have hmapfilter : ((enumMapFrom (batchRow c) 0 data).map trOf).filter
        (fun t => t.SKU == getStr r "SKU")
      = [trOf { row_index := n, SKU := getStr r "SKU", value := getStr r c }] := by
    rw [List.filter_map]
    have hpred : ((fun t : TRow => t.SKU == getStr r "SKU") ∘ trOf)
        = (fun b : BRow => b.SKU == getStr r "SKU") := rfl
    rw [hpred, hn, List.map_cons, List.map_nil]
  have hfil : rows.filter (fun t => t.SKU == getStr r "SKU")
      = [trOf { row_index := n, SKU := getStr r "SKU", value := getStr r c }] := by
    have h1 := hperm.filter (fun t => t.SKU == getStr r "SKU")
    rw [hmapfilter] at h1
    exact List.perm_singleton.mp h1
  have hded := dedupe_filter_singleton rows (getStr r "SKU") _ hs hfil
  have hpp : (fun t : TRow => !(t.SKU == "") && (t.SKU == getStr r "SKU"))
      = (fun t => t.SKU == getStr r "SKU") := by
    funext t
    by_cases ht : t.SKU = getStr r "SKU"
    · simp [ht, hs]
    · simp [ht]
  rw [mapGet_buildSkuMap, hpp, lastWith_of_filter_singleton _ _ _ hded]
  rfl

theorem getStr_mapSet_self (r : Rec) (k v : String) : getStr (mapSet r k v) k = v := by
  unfold getStr getOpt
  rw [mapGet_mapSet_self]
  rfl

theorem applyTranslations_single (data : List Rec) (c : String) (trows : List TRow) :
    applyTranslations data [(c, trows)]
      = data.map (fun row =>
          if getStr row "SKU" = "" then row
          else match mapGet (buildSkuMap trows) (getStr row "SKU") with
            | some v => mapSet row c v
            | none => row) := by
  unfold applyTranslations
  refine List.map_congr_left (fun row hrow => ?_)
  by_cases h : getStr row "SKU" = ""
  · rw [if_pos h, if_pos h]
  · rw [if_neg h, if_neg h, List.foldl_cons, List.foldl_nil]

/-! ## Claim C9 -/

/-- C9: extracting any of the four columns, importing an unmodified copy
of the exported batches, and merging the resulting translation map back
reproduces the original values of that column on every row, provided the
unified set is non-empty and its non-empty identifiers are pairwise
distinct (as `mergeFiles` guarantees). -/
theorem extract_import_merge_roundtrip (data : List Rec) (c : String)
    (hc : c ∈ columnsToExtract) (hne : data ≠ [])
    (hnd : ((data.map (fun x => getStr x "SKU")).filter (fun x => !(x == ""))).Nodup) :
    ∃ out, roundTrip data c = some out
      ∧ out.length = data.length
      ∧ ∀ i : Nat, out[i]?.map (fun r => getStr r c) = data[i]?.map (fun r => getStr r c) := by
  have hall : (((batchesFor data c).map (fun b => b.map (batchRowToRec c))).map
        (fun f => f.filterMap (standardizeRow c))).flatten
      = (enumMapFrom (batchRow c) 0 data).map trOf := by
    rw [List.map_map]
    have hbody : (batchesFor data c).map
          ((fun f => f.filterMap (standardizeRow c)) ∘ (fun b => b.map (batchRowToRec c)))
        = (batchesFor data c).map (fun b => b.map trOf) := by
      refine List.map_congr_left (fun b hb => ?_)
      exact filterMap_standardize_batch c hc b
    rw [hbody, ← List.map_flatten, batchesFor_flatten]
  set files := (batchesFor data c).map (fun b => b.map (batchRowToRec c)) with hfiles
  set sortedRows := (if 1 < files.length
      then ((files.map (fun f => f.filterMap (standardizeRow c))).flatten).mergeSort rowLE
      else (files.map (fun f => f.filterMap (standardizeRow c))).flatten) with hsorted
  have hperm : sortedRows.Perm ((enumMapFrom (batchRow c) 0 data).map trOf) := by
    rw [hsorted]
    by_cases h : 1 < files.length
    · rw [if_pos h, ← hall]
      exact List.mergeSort_perm _ _
    · rw [if_neg h, hall]
  have hlen0 : ((enumMapFrom (batchRow c) 0 data).map trOf).length = data.length := by
    rw [List.length_map, enumMapFrom_length]
  have hnonempty : sortedRows.isEmpty = false := by
    have hl : sortedRows.length = data.length := hperm.length_eq.trans hlen0
    cases hd : sortedRows with
    | nil =>
      rw [hd] at hl
      exact absurd (List.length_eq_zero.mp hl.symm) hne
    | cons t rest => rfl
  have himp : importTranslations c files = some (dedupeBySku sortedRows) := by
    show (if sortedRows.isEmpty then none else some (dedupeBySku sortedRows)) = _
    rw [hnonempty]
    rfl
  refine ⟨applyTranslations data [(c, dedupeBySku sortedRows)], ?_, ?_, ?_⟩
  · unfold roundTrip
    rw [← hfiles, himp]
    rfl
  · rw [applyTranslations_single, List.length_map]
  · intro i
    rw [applyTranslations_single, List.getElem?_map]
    cases hi : data[i]? with
    | none => rfl
    | some r =>
      have hrmem : r ∈ data := List.getElem?_mem hi
      simp only [Option.map_some']
      by_cases h : getStr r "SKU" = ""
      · rw [if_pos h]
      · rw [if_neg h, lookup_roundTrip c data r hrmem h hnd sortedRows hperm]
        show some (getStr (mapSet r c (getStr r c)) c) = some (getStr r c)
        rw [getStr_mapSet_self]


/-- C9 witness: the round trip instantiated at concrete data and the Title
column. -/
theorem extract_import_merge_roundtrip_witness :
    ∃ out, roundTrip dataW9 "Title" = some out
      ∧ out.length = dataW9.length
      ∧ ∀ i : Nat, out[i]?.map (fun r => getStr r "Title")
          = dataW9[i]?.map (fun r => getStr r "Title") :=
  extract_import_merge_roundtrip dataW9 "Title" (by decide) (by decide) (by decide)

/-! ## Claim C10 -/



/-- C10: the index realizes last-write-wins over the records with truthy
raw SKU, keyed by the normalized key — so a non-empty raw SKU normalizing
to `""` is indexed under the empty-string key rather than skipped, such
records overwrite each other within one input, and across both inputs they
collapse into a single both-present unified record whose SKU field is
empty (reflecting the later primary record). -/
theorem buildIndex_empty_key_collapse :
    (∀ data k, mapGet (buildIndex data) k
        = lastWith (fun r => keptSKU r && (normalizeSKU (getStr r "SKU") == k)) data)
    ∧ normalizeSKU "B34" = "" ∧ normalizeSKU "V1" = "" ∧ normalizeSKU "b34v1" = ""
    ∧ (mergeFiles deC10 pC10).map (fun r => (getStr r "SKU", getStr r "Price")) = [("", "2")]
    ∧ (mergeFilesTagged deC10 pC10).map (fun q => q.1) = [Branch.both] := by
  exact ⟨mapGet_buildIndex, by decide, by decide, by decide, by decide, by decide⟩

end CsvMergeTranslate
